import Mathlib

/-!
Shallow embedding of the status-resolution core of the dotfile manager in
package.py: a filesystem model, the Node and Layer status computation
(get_status), the merge, unmerge and force_out transitions, and the
git_diff wrapper. Mutating operations return the filesystem reached at
return or raise time together with the raised error, if any; the
fuel-indexed status interpreter returns none when the mutual sibling
recursion of get_status runs out of fuel at every depth, which models
nontermination.
-/

namespace Dotfiles

/-- Paths are atoms standing for normalized absolute paths. Every path
comparison in the source happens after os.path.normpath, which is
idempotent, so the model works with normal forms directly and path
equality is plain equality of atoms. -/
abbrev Path := Nat

/-- One directory entry: nothing, a regular file with its byte content,
or a symbolic link holding a destination path. Directories are not
modelled; os.makedirs in Node.merge is therefore a no-op of the model. -/
inductive Entry where
  | absent : Entry
  | file : String → Entry
  | symlink : Path → Entry
deriving DecidableEq, Repr

/-- A filesystem state maps every path to its entry. -/
abbrev Fs := Path → Entry

/-- Writing one entry at one path. -/
def updateFs (fs : Fs) (p : Path) (e : Entry) : Fs :=
  fun q => if q = p then e else fs q

/-- Follows symlink chains up to the given bound, returning the content of
the regular file finally reached, if any. -/
def resolveFile (fs : Fs) : Nat → Path → Option String
  | 0, _ => none
  | n+1, p =>
    match fs p with
    | .absent => none
    | .file c => some c
    | .symlink d => resolveFile fs n d

/-- os.path.isfile: the path resolves, through symlinks, to a regular
file. The bound of 40 mirrors the kernel ELOOP limit; a link cycle makes
isfile false, as it does for os.path.isfile. -/
def isfile (fs : Fs) (p : Path) : Bool :=
  (resolveFile fs 40 p).isSome

/-- os.readlink wrapped in try/except as in Node.get_status: some
destination when the entry is a symlink, none otherwise. -/
def readlinkOpt (fs : Fs) (p : Path) : Option Path :=
  match fs p with
  | .symlink d => some d
  | _ => none

/-- Modelled from the spec: the byte comparison performed by the external
git binary, which is not part of the repository. Two paths compare equal
exactly when both entries exist, are of the same kind, and carry
identical bytes (file contents, or link destinations); a missing path or
mismatched kinds compare unequal. -/
def gitFilesEqual (fs : Fs) (p q : Path) : Bool :=
  match fs p, fs q with
  | .file a, .file b => a == b
  | .symlink a, .symlink b => a == b
  | _, _ => false

/-- The status characters of the source: N missing, O owned by another
layer, S symlinked, C present and identical, Bang present and differing
(written as an exclamation mark in the source). -/
inductive Status where
  | N | O | S | C | Bang
deriving DecidableEq, Repr

/-- The File class of the source: one tracked home-relative path, with
its absolute target path and the source paths of the Nodes bound to it,
in creation order. A Node is addressed by its index into sources, which
mirrors Python object identity inside the node list. -/
structure TFile where
  path : Path
  sources : List Path
deriving DecidableEq, Repr

/-- The source path of the node of index i (the path attribute of the
Node object). -/
def TFile.src (tf : TFile) (i : Nat) : Path :=
  tf.sources.getD i 0

/-- The sibling loop at the end of Node.get_status: walk the node list in
order, skip self (index i), return O at the first sibling whose status is
C or S, propagate a sibling that yields no result, and return Bang after
the loop. -/
def scanSiblings (g : Nat → Option Status) (i : Nat) : List Nat → Option Status
  | [] => some .Bang
  | j :: rest =>
    if j = i then scanSiblings g i rest
    else
      match g j with
      | none => none
      | some s => if s = .C ∨ s = .S then some .O else scanSiblings g i rest

/-- Node.get_status of the source for the node of index i of tf, as a
fuel-indexed interpreter: each recursive call into a sibling consumes one
unit of fuel, and none models a computation that runs out of fuel. The
four steps are in source order: missing target, correctly symlinked
target, byte-identical target, then the sibling ownership scan. -/
def Node.get_status (fs : Fs) (tf : TFile) : Nat → Nat → Option Status
  | 0, _ => none
  | fuel+1, i =>
    if isfile fs tf.path = false then some .N
    else if readlinkOpt fs tf.path = some (tf.src i) then some .S
    else if gitFilesEqual fs (tf.src i) tf.path then some .C
    else scanSiblings (fun j => Node.get_status fs tf fuel j) i
      (List.range tf.sources.length)

/-- The errors the transitions can raise: the Not supported exception of
the safety checks, and the OSError conditions of os.symlink and
os.remove. -/
inductive Err where
  | unsupportedTransition
  | fileExists
  | fileNotFound
deriving DecidableEq, Repr

/-- os.remove: fails when no entry is present, else deletes the entry
(a symlink is deleted, not followed). -/
def removeOp (fs : Fs) (p : Path) : Fs × Option Err :=
  if fs p = .absent then (fs, some .fileNotFound)
  else (updateFs fs p .absent, none)

/-- os.symlink: fails with FileExistsError when any entry, even a
dangling symlink, is present at the destination. -/
def symlinkOp (fs : Fs) (s p : Path) : Fs × Option Err :=
  if fs p = .absent then (updateFs fs p (.symlink s), none)
  else (fs, some .fileExists)

/-- Node.unmerge of the source: a status outside C, S, N raises the Not
supported exception; N is a no-op; otherwise the target is removed. The
result carries the filesystem at return or raise time and the raised
error, none meaning normal return; the outer none means get_status ran
out of fuel. -/
def Node.unmerge (fuel : Nat) (fs : Fs) (tf : TFile) (i : Nat) :
    Option (Fs × Option Err) :=
  match Node.get_status fs tf fuel i with
  | none => none
  | some st =>
    if st = .C ∨ st = .S ∨ st = .N then
      if st = .N then some (fs, none)
      else some (removeOp fs tf.path)
    else some (fs, some .unsupportedTransition)

/-- Node.merge of the source: a status outside C, S, N raises; S is a
no-op; otherwise unmerge runs first, parent directories are created when
the status was N (a no-op here, directories are not modelled), and a
symlink target to source is created. -/
def Node.merge (fuel : Nat) (fs : Fs) (tf : TFile) (i : Nat) :
    Option (Fs × Option Err) :=
  match Node.get_status fs tf fuel i with
  | none => none
  | some st =>
    if st = .C ∨ st = .S ∨ st = .N then
      if st = .S then some (fs, none)
      else
        match Node.unmerge fuel fs tf i with
        | none => none
        | some (fs1, some e) => some (fs1, some e)
        | some (fs1, none) => some (symlinkOp fs1 (tf.src i) tf.path)
    else some (fs, some .unsupportedTransition)

/-- Node.force_out of the source: only the Bang status is allowed; the
confirmation answer aborts exactly on the four literals n, N, No, no;
every other answer removes the target and calls merge. -/
def Node.force_out (fuel : Nat) (fs : Fs) (tf : TFile) (i : Nat)
    (confirm : String) : Option (Fs × Option Err) :=
  match Node.get_status fs tf fuel i with
  | none => none
  | some st =>
    if st = .Bang then
      if confirm = "n" ∨ confirm = "N" ∨ confirm = "No" ∨ confirm = "no" then
        some (fs, none)
      else
        match removeOp fs tf.path with
        | (fs1, some e) => some (fs1, some e)
        | (fs1, none) => Node.merge fuel fs1 tf i
    else some (fs, some .unsupportedTransition)

/-- One node of a layer: the tracked file it is bound to and its index in
the node list of that file. -/
structure NodeRef where
  tf : TFile
  idx : Nat
deriving DecidableEq, Repr

/-- The target path of the node (file.path in the source). -/
def NodeRef.tgt (n : NodeRef) : Path := n.tf.path

/-- The source path of the node (self.path in the source). -/
def NodeRef.src (n : NodeRef) : Path := n.tf.src n.idx

/-- The Layer class of the source: its node list in discovery order and
its hook path lists. The unmerge hooks are discovered but never invoked
by the source. -/
structure Layer where
  nodes : List NodeRef
  merge_hooks : List Path
  unmerge_hooks : List Path
deriving DecidableEq, Repr

/-- The status of one layer node in a filesystem state. -/
def nodeStat (fuel : Nat) (fs : Fs) (n : NodeRef) : Option Status :=
  Node.get_status fs n.tf fuel n.idx

/-- The aggregation loop of Layer.get_status: the accumulator starts at
S; a node at N or Bang returns N at once, a node at O returns O at once,
C downgrades the accumulator, S keeps it. -/
def Layer.scanStatus (fuel : Nat) (fs : Fs) (acc : Status) :
    List NodeRef → Option Status
  | [] => some acc
  | n :: rest =>
    match nodeStat fuel fs n with
    | none => none
    | some .N => some .N
    | some .Bang => some .N
    | some .O => some .O
    | some .S => Layer.scanStatus fuel fs acc rest
    | some .C => Layer.scanStatus fuel fs .C rest

/-- Layer.get_status of the source. -/
def Layer.get_status (fuel : Nat) (fs : Fs) (L : Layer) : Option Status :=
  Layer.scanStatus fuel fs .S L.nodes

/-- The node loop of Layer.merge: nodes merge in order; a raise stops the
loop and propagates, keeping the filesystem reached so far. -/
def Layer.mergeNodes (fuel : Nat) : Fs → List NodeRef → Option (Fs × Option Err)
  | fs, [] => some (fs, none)
  | fs, n :: rest =>
    match Node.merge fuel fs n.tf n.idx with
    | none => none
    | some (fs1, some e) => some (fs1, some e)
    | some (fs1, none) => Layer.mergeNodes fuel fs1 rest

/-- Layer.merge of the source: a status outside C, S, N raises; S is a
no-op; otherwise every node merges in order and then every merge hook
runs. The third component lists the hooks that were executed: none run
when a node raises, and none run on the no-op path. -/
def Layer.merge (fuel : Nat) (fs : Fs) (L : Layer) :
    Option (Fs × Option Err × List Path) :=
  match Layer.get_status fuel fs L with
  | none => none
  | some st =>
    if st = .C ∨ st = .S ∨ st = .N then
      if st = .S then some (fs, none, [])
      else
        match Layer.mergeNodes fuel fs L.nodes with
        | none => none
        | some (fs1, some e) => some (fs1, some e, [])
        | some (fs1, none) => some (fs1, none, L.merge_hooks)
    else some (fs, some .unsupportedTransition, [])

/-- The node loop of Layer.unmerge. -/
def Layer.unmergeNodes (fuel : Nat) : Fs → List NodeRef → Option (Fs × Option Err)
  | fs, [] => some (fs, none)
  | fs, n :: rest =>
    match Node.unmerge fuel fs n.tf n.idx with
    | none => none
    | some (fs1, some e) => some (fs1, some e)
    | some (fs1, none) => Layer.unmergeNodes fuel fs1 rest

/-- Layer.unmerge of the source: a status outside C, S, N raises; N is a
no-op; otherwise every node unmerges in order. No hook is invoked. -/
def Layer.unmerge (fuel : Nat) (fs : Fs) (L : Layer) :
    Option (Fs × Option Err) :=
  match Layer.get_status fuel fs L with
  | none => none
  | some st =>
    if st = .C ∨ st = .S ∨ st = .N then
      if st = .N then some (fs, none)
      else Layer.unmergeNodes fuel fs L.nodes
    else some (fs, some .unsupportedTransition)

/-- The outside world observed by one git_diff call: whether
subprocess.Popen succeeds, whether communicate and decode succeed, and
the decoded stdout of the git process. -/
structure GitEnv where
  spawnOk : Bool
  commOk : Bool
  stdout : String
deriving DecidableEq, Repr

/-- The outcome of one git_diff call: raised is true when an exception
escapes to the caller, value is the returned boolean when the call
returns, warned records the warning line of the except branch. -/
structure GitResult where
  raised : Bool
  value : Option Bool
  warned : Bool
deriving DecidableEq, Repr

/-- The str.strip method of Python: drop whitespace from both ends. -/
def pyStrip (s : String) : String :=
  String.mk (((s.data.dropWhile Char.isWhitespace).reverse.dropWhile
    Char.isWhitespace).reverse)

/-- git_diff of the source. The Popen call stands outside the try block,
so a spawn failure escapes to the caller; a communicate or decode failure
is caught, warns, and returns False; otherwise the result is the
emptiness of the stripped stdout. -/
def git_diff (env : GitEnv) : GitResult :=
  if env.spawnOk = false then ⟨true, none, false⟩
  else if env.commOk = false then ⟨false, some false, true⟩
  else ⟨false, some (pyStrip env.stdout == ""), false⟩

/-- Modelled from the spec: the stdout of the external git diff process
run on two paths, empty exactly when the byte comparison succeeds. -/
def gitStdout (fs : Fs) (p q : Path) : String :=
  if gitFilesEqual fs p q then "" else "diff"

/-- The fuel-indexed interpreter yields no result at any fuel: the mutual
sibling recursion of get_status does not terminate on this input. -/
def neverReturns (fs : Fs) (tf : TFile) (i : Nat) : Prop :=
  ∀ fuel, Node.get_status fs tf fuel i = none

/-- A layer node whose status lets the aggregation loop continue:
Symlinked, or Identical. -/
def goodSC (fuel : Nat) (fs : Fs) (n : NodeRef) : Prop :=
  nodeStat fuel fs n = some .S ∨ nodeStat fuel fs n = some .C

/-! Concrete filesystem states and tracked files used by the witnesses,
counterexamples and failing inputs below. -/

/-- Three byte-identical regular files: a target at 0 and two layer
sources at 1 and 2. -/
def fsA : Fs := fun p =>
  if p = 0 then .file "x" else if p = 1 then .file "x"
  else if p = 2 then .file "x" else .absent

def tfA : TFile := ⟨0, [1, 2]⟩

/-- A target at 0 symlinked to the source at 1; a second source at 2. -/
def fsB : Fs := fun p =>
  if p = 0 then .symlink 1 else if p = 1 then .file "x"
  else if p = 2 then .file "y" else .absent

def tfB : TFile := ⟨0, [1, 2]⟩

/-- A target at 0 whose content differs from both sources at 1 and 2. -/
def fsC : Fs := fun p =>
  if p = 0 then .file "t" else if p = 1 then .file "a"
  else if p = 2 then .file "b" else .absent

def tfC : TFile := ⟨0, [1, 2]⟩

/-- A target at 10 whose content differs from both sources at 11 and 12. -/
def fsD : Fs := fun p =>
  if p = 10 then .file "t" else if p = 11 then .file "a"
  else if p = 12 then .file "b" else .absent

def tfD : TFile := ⟨10, [11, 12]⟩

/-- An empty filesystem. -/
def fsW3 : Fs := fun _ => .absent

def tfW3 : TFile := ⟨0, [1]⟩

/-- A target at 0 differing from the source at 1 but identical to the
source at 2, so that node 0 observes node 1 as the owner. -/
def fsE : Fs := fun p =>
  if p = 0 then .file "t" else if p = 1 then .file "a"
  else if p = 2 then .file "t" else .absent

def tfE : TFile := ⟨0, [1, 2]⟩

def LE4 : Layer := ⟨[⟨tfE, 0⟩], [], []⟩

/-- An absent target at 40 and a regular source file at 41. -/
def fsF : Fs := fun p =>
  if p = 40 then .absent else if p = 41 then .file "x" else .absent

def tfF : TFile := ⟨40, [41]⟩

/-- A dangling symlink at the target 50 (its destination 55 is absent)
and a regular source file at 51. -/
def fsG : Fs := fun p =>
  if p = 50 then .symlink 55 else if p = 51 then .file "x" else .absent

def tfG : TFile := ⟨50, [51]⟩

/-- An absent target at 56 and an absent source at 57. -/
def fsG2 : Fs := fun _ => .absent

def tfG2 : TFile := ⟨56, [57]⟩

/-- An absent target at 60 and an absent source at 61. -/
def fsH : Fs := fun _ => .absent

def tfH : TFile := ⟨60, [61]⟩

/-- An absent target at 70 and a regular source file at 71, wrapped in a
one-node layer with one merge hook. -/
def fsI : Fs := fun p =>
  if p = 71 then .file "z" else .absent

def tfI : TFile := ⟨70, [71]⟩

def LI : Layer := ⟨[⟨tfI, 0⟩], [7], []⟩

/-- A layer whose first node (target 20) is missing and whose second node
(target 22) is byte-identical to its source at 23. -/
def fsJ : Fs := fun p =>
  if p = 21 then .file "a" else if p = 22 then .file "b"
  else if p = 23 then .file "b" else .absent

def tfJ1 : TFile := ⟨20, [21]⟩

def tfJ2 : TFile := ⟨22, [23]⟩

def LJ : Layer := ⟨[⟨tfJ1, 0⟩, ⟨tfJ2, 0⟩], [], []⟩

/-- A conflicted single node: target 72 and source 73 differ. -/
def fsK : Fs := fun p =>
  if p = 72 then .file "a" else if p = 73 then .file "b" else .absent

def tfK : TFile := ⟨72, [73]⟩

/-- A conflicted single node: target 80 and source 81 differ. -/
def fsL : Fs := fun p =>
  if p = 80 then .file "a" else if p = 81 then .file "b" else .absent

def tfL : TFile := ⟨80, [81]⟩

/-- A two-node layer: the first node (target 30, source 31) is missing,
the second node (target 32, source 33) is conflicted; the layer lists one
merge hook at 99. -/
def fsM : Fs := fun p =>
  if p = 31 then .file "a" else if p = 32 then .file "x"
  else if p = 33 then .file "y" else .absent

def tfM1 : TFile := ⟨30, [31]⟩

def tfM2 : TFile := ⟨32, [33]⟩

def nM1 : NodeRef := ⟨tfM1, 0⟩

def nM2 : NodeRef := ⟨tfM2, 0⟩

def LM : Layer := ⟨[nM1, nM2], [99], []⟩

/-! Basic lemmas about the filesystem model. -/

theorem updateFs_apply_self (fs : Fs) (p : Path) (e : Entry) :
    updateFs fs p e p = e := by
  simp [updateFs]

theorem updateFs_apply_ne (fs : Fs) (p q : Path) (e : Entry) (h : q ≠ p) :
    updateFs fs p e q = fs q := by
  simp [updateFs, h]

theorem updateFs_collapse (fs : Fs) (p : Path) (a b : Entry) :
    updateFs (updateFs fs p a) p b = updateFs fs p b := by
  funext q
  by_cases h : q = p <;> simp [updateFs, h]

theorem updateFs_keep (fs : Fs) (p : Path) :
    updateFs fs p (fs p) = fs := by
  funext q
  by_cases h : q = p <;> simp [updateFs, h]

theorem resolveFile_succ (fs : Fs) (n : Nat) (p : Path) :
    resolveFile fs (n+1) p =
      (match fs p with
       | .absent => none
       | .file c => some c
       | .symlink d => resolveFile fs n d) := rfl

theorem isfile_absent {fs : Fs} {p : Path} (h : fs p = .absent) :
    isfile fs p = false := by
  unfold isfile
  rw [show (40 : Nat) = 39 + 1 from rfl, resolveFile_succ, h]
  rfl

theorem isfile_file {fs : Fs} {p : Path} {c : String} (h : fs p = .file c) :
    isfile fs p = true := by
  unfold isfile
  rw [show (40 : Nat) = 39 + 1 from rfl, resolveFile_succ, h]
  rfl

theorem isfile_link_file {fs : Fs} {p d : Path} {c : String}
    (h1 : fs p = .symlink d) (h2 : fs d = .file c) :
    isfile fs p = true := by
  unfold isfile
  rw [show (40 : Nat) = 39 + 1 from rfl, resolveFile_succ, h1]
  show (resolveFile fs 39 d).isSome = true
  rw [show (39 : Nat) = 38 + 1 from rfl, resolveFile_succ, h2]
  rfl

theorem ne_absent_of_isfile {fs : Fs} {p : Path} (h : isfile fs p = true) :
    fs p ≠ .absent := by
  intro hab
  rw [isfile_absent hab] at h
  cases h

/-! Unfolding lemmas for the status interpreter. -/

theorem get_status_zero (fs : Fs) (tf : TFile) (i : Nat) :
    Node.get_status fs tf 0 i = none := rfl

theorem get_status_eq (fs : Fs) (tf : TFile) (fuel i : Nat) :
    Node.get_status fs tf (fuel+1) i =
      (if isfile fs tf.path = false then some .N
       else if readlinkOpt fs tf.path = some (tf.src i) then some .S
       else if gitFilesEqual fs (tf.src i) tf.path then some .C
       else scanSiblings (fun j => Node.get_status fs tf fuel j) i
         (List.range tf.sources.length)) := rfl

theorem scanSiblings_nil (g : Nat → Option Status) (i : Nat) :
    scanSiblings g i [] = some .Bang := rfl

theorem scanSiblings_cons (g : Nat → Option Status) (i j : Nat) (rest : List Nat) :
    scanSiblings g i (j :: rest) =
      (if j = i then scanSiblings g i rest
       else
         match g j with
         | none => none
         | some s => if s = .C ∨ s = .S then some .O
             else scanSiblings g i rest) := rfl

/-! Lemmas about the sibling scan. -/

theorem scanSiblings_some (g : Nat → Option Status) (i : Nat) :
    ∀ (l : List Nat) (r : Status),
      scanSiblings g i l = some r → r = .O ∨ r = .Bang := by
  intro l
  induction l with
  | nil =>
    intro r h
    rw [scanSiblings_nil] at h
    injection h with h
    exact Or.inr h.symm
  | cons j rest ih =>
    intro r h
    rw [scanSiblings_cons] at h
    by_cases hj : j = i
    · rw [if_pos hj] at h
      exact ih r h
    · rw [if_neg hj] at h
      cases hg : g j with
      | none => rw [hg] at h; cases h
      | some s =>
        rw [hg] at h
        replace h : (if s = .C ∨ s = .S then some Status.O
            else scanSiblings g i rest) = some r := h
        by_cases hsc : s = .C ∨ s = .S
        · rw [if_pos hsc] at h
          injection h with h
          exact Or.inl h.symm
        · rw [if_neg hsc] at h
          exact ih r h

theorem scanSiblings_O_elim (g : Nat → Option Status) (i : Nat) :
    ∀ l : List Nat, scanSiblings g i l = some .O →
      ∃ j ∈ l, j ≠ i ∧ ∃ s, g j = some s ∧ (s = .C ∨ s = .S) := by
  intro l
  induction l with
  | nil => intro h; rw [scanSiblings_nil] at h; cases h
  | cons j rest ih =>
    intro h
    rw [scanSiblings_cons] at h
    by_cases hj : j = i
    · rw [if_pos hj] at h
      obtain ⟨k, hk, hkne, s, hs, hsc⟩ := ih h
      exact ⟨k, List.mem_cons_of_mem _ hk, hkne, s, hs, hsc⟩
    · rw [if_neg hj] at h
      cases hg : g j with
      | none => rw [hg] at h; cases h
      | some s =>
        rw [hg] at h
        replace h : (if s = .C ∨ s = .S then some Status.O
            else scanSiblings g i rest) = some Status.O := h
        by_cases hsc : s = .C ∨ s = .S
        · exact ⟨j, List.mem_cons_self _ _, hj, s, hg, hsc⟩
        · rw [if_neg hsc] at h
          obtain ⟨k, hk, hkne, s2, hs2, hsc2⟩ := ih h
          exact ⟨k, List.mem_cons_of_mem _ hk, hkne, s2, hs2, hsc2⟩

theorem scanSiblings_O_of (g : Nat → Option Status) (i : Nat) :
    ∀ (l : List Nat) (r : Status) (j : Nat) (s : Status),
      scanSiblings g i l = some r → j ∈ l → j ≠ i → g j = some s →
      (s = .C ∨ s = .S) → r = .O := by
  intro l
  induction l with
  | nil =>
    intro r j s _ hj
    cases hj
  | cons k rest ih =>
    intro r j s h hj hjne hg hsc
    rw [scanSiblings_cons] at h
    by_cases hk : k = i
    · rw [if_pos hk] at h
      rcases List.mem_cons.mp hj with hjk | hjr
      · exact absurd (hjk.trans hk) hjne
      · exact ih r j s h hjr hjne hg hsc
    · rw [if_neg hk] at h
      cases hgk : g k with
      | none => rw [hgk] at h; cases h
      | some s2 =>
        rw [hgk] at h
        replace h : (if s2 = .C ∨ s2 = .S then some Status.O
            else scanSiblings g i rest) = some r := h
        by_cases hsc2 : s2 = .C ∨ s2 = .S
        · rw [if_pos hsc2] at h
          injection h with h
          exact h.symm
        · rw [if_neg hsc2] at h
          rcases List.mem_cons.mp hj with hjk | hjr
          · subst hjk
            rw [hg] at hgk
            injection hgk with hgk
            exact absurd (hgk ▸ hsc) hsc2
          · exact ih r j s h hjr hjne hg hsc

theorem scanSiblings_Bang_elim (g : Nat → Option Status) (i : Nat) :
    ∀ l : List Nat, scanSiblings g i l = some .Bang →
      ∀ j ∈ l, j ≠ i → ∃ s, g j = some s ∧ ¬(s = .C ∨ s = .S) := by
  intro l
  induction l with
  | nil =>
    intro _ j hj
    cases hj
  | cons k rest ih =>
    intro h j hj hjne
    rw [scanSiblings_cons] at h
    by_cases hk : k = i
    · rw [if_pos hk] at h
      rcases List.mem_cons.mp hj with hjk | hjr
      · exact absurd (hjk.trans hk) hjne
      · exact ih h j hjr hjne
    · rw [if_neg hk] at h
      cases hgk : g k with
      | none => rw [hgk] at h; cases h
      | some s2 =>
        rw [hgk] at h
        replace h : (if s2 = .C ∨ s2 = .S then some Status.O
            else scanSiblings g i rest) = some Status.Bang := h
        by_cases hsc2 : s2 = .C ∨ s2 = .S
        · rw [if_pos hsc2] at h; cases h
        · rw [if_neg hsc2] at h
          rcases List.mem_cons.mp hj with hjk | hjr
          · subst hjk
            exact ⟨s2, hgk, hsc2⟩
          · exact ih h j hjr hjne

theorem scanSiblings_none (g : Nat → Option Status) (i : Nat) :
    ∀ l : List Nat, (∀ k ∈ l, k ≠ i → g k = none) →
      (∃ k ∈ l, k ≠ i) → scanSiblings g i l = none := by
  intro l
  induction l with
  | nil =>
    intro _ hex
    obtain ⟨k, hk, _⟩ := hex
    cases hk
  | cons k rest ih =>
    intro hall hex
    rw [scanSiblings_cons]
    by_cases hk : k = i
    · rw [if_pos hk]
      apply ih
      · intro m hm hmne
        exact hall m (List.mem_cons_of_mem _ hm) hmne
      · obtain ⟨m, hm, hmne⟩ := hex
        rcases List.mem_cons.mp hm with hmk | hmr
        · exact absurd (hmk.trans hk) hmne
        · exact ⟨m, hmr, hmne⟩
    · rw [if_neg hk]
      rw [hall k (List.mem_cons_self _ _) hk]

/-! Elimination and introduction lemmas for the node statuses. -/

theorem status_N_elim {fs : Fs} {tf : TFile} {fuel i : Nat}
    (h : Node.get_status fs tf fuel i = some .N) :
    isfile fs tf.path = false := by
  cases fuel with
  | zero => cases h
  | succ f =>
    rw [get_status_eq] at h
    by_cases h1 : isfile fs tf.path = false
    · exact h1
    · rw [if_neg h1] at h
      by_cases h2 : readlinkOpt fs tf.path = some (tf.src i)
      · rw [if_pos h2] at h; cases h
      · rw [if_neg h2] at h
        by_cases h3 : gitFilesEqual fs (tf.src i) tf.path = true
        · rw [if_pos h3] at h; cases h
        · rw [if_neg h3] at h
          rcases scanSiblings_some _ _ _ _ h with hr | hr <;> cases hr

theorem status_isfile {fs : Fs} {tf : TFile} {fuel i : Nat} {st : Status}
    (h : Node.get_status fs tf fuel i = some st) (hst : st ≠ .N) :
    isfile fs tf.path = true := by
  cases fuel with
  | zero => cases h
  | succ f =>
    rw [get_status_eq] at h
    by_cases h1 : isfile fs tf.path = false
    · rw [if_pos h1] at h
      injection h with h
      exact absurd h.symm hst
    · cases hv : isfile fs tf.path
      · exact absurd hv h1
      · rfl

theorem status_S_elim {fs : Fs} {tf : TFile} {fuel i : Nat}
    (h : Node.get_status fs tf fuel i = some .S) :
    isfile fs tf.path = true ∧ fs tf.path = .symlink (tf.src i) := by
  cases fuel with
  | zero => cases h
  | succ f =>
    have hf : isfile fs tf.path = true := status_isfile h (by intro hc; cases hc)
    rw [get_status_eq] at h
    rw [if_neg (by simp [hf])] at h
    by_cases h2 : readlinkOpt fs tf.path = some (tf.src i)
    · refine ⟨hf, ?_⟩
      unfold readlinkOpt at h2
      cases he : fs tf.path with
      | absent => rw [he] at h2; cases h2
      | file c => rw [he] at h2; cases h2
      | symlink d =>
        rw [he] at h2
        injection h2 with h2
        rw [h2]
    · rw [if_neg h2] at h
      by_cases h3 : gitFilesEqual fs (tf.src i) tf.path = true
      · rw [if_pos h3] at h; cases h
      · rw [if_neg h3] at h
        rcases scanSiblings_some _ _ _ _ h with hr | hr <;> cases hr

theorem status_C_elim {fs : Fs} {tf : TFile} {fuel i : Nat}
    (h : Node.get_status fs tf fuel i = some .C) :
    isfile fs tf.path = true ∧ readlinkOpt fs tf.path ≠ some (tf.src i)
      ∧ gitFilesEqual fs (tf.src i) tf.path = true := by
  cases fuel with
  | zero => cases h
  | succ f =>
    have hf : isfile fs tf.path = true := status_isfile h (by intro hc; cases hc)
    rw [get_status_eq] at h
    rw [if_neg (by simp [hf])] at h
    by_cases h2 : readlinkOpt fs tf.path = some (tf.src i)
    · rw [if_pos h2] at h; cases h
    · rw [if_neg h2] at h
      by_cases h3 : gitFilesEqual fs (tf.src i) tf.path = true
      · exact ⟨hf, h2, h3⟩
      · rw [if_neg h3] at h
        rcases scanSiblings_some _ _ _ _ h with hr | hr <;> cases hr

theorem status_N_intro {fs : Fs} {tf : TFile}
    (h : isfile fs tf.path = false) (f i : Nat) :
    Node.get_status fs tf (f+1) i = some .N := by
  rw [get_status_eq, if_pos h]

theorem status_S_intro {fs : Fs} {tf : TFile} {i : Nat}
    (hf : isfile fs tf.path = true) (hl : fs tf.path = .symlink (tf.src i))
    (f : Nat) :
    Node.get_status fs tf (f+1) i = some .S := by
  rw [get_status_eq, if_neg (by simp [hf]),
    if_pos (show readlinkOpt fs tf.path = some (tf.src i) by
      unfold readlinkOpt; rw [hl])]

/-- On a filesystem state where every node of the file fails the first
three checks of get_status (target present, not symlinked to it, content
differing), a file shared by two or more nodes makes the sibling
recursion of get_status diverge: the interpreter yields no result at any
fuel, for every node of the file. -/
theorem get_status_stuck (fs : Fs) (tf : TFile)
    (hlen : 2 ≤ tf.sources.length)
    (hall : ∀ j, j < tf.sources.length →
      isfile fs tf.path = true ∧ readlinkOpt fs tf.path ≠ some (tf.src j)
        ∧ gitFilesEqual fs (tf.src j) tf.path = false) :
    ∀ fuel j, j < tf.sources.length → Node.get_status fs tf fuel j = none := by
  intro fuel
  induction fuel with
  | zero => intro j _; rfl
  | succ f ih =>
    intro j hj
    obtain ⟨h1, h2, h3⟩ := hall j hj
    rw [get_status_eq, if_neg (by simp [h1]), if_neg h2, if_neg (by simp [h3])]
    apply scanSiblings_none
    · intro k hk _
      exact ih k (List.mem_range.mp hk)
    · refine ⟨if j = 0 then 1 else 0, ?_, ?_⟩
      · apply List.mem_range.mpr
        by_cases h0 : j = 0
        · simp [h0]; omega
        · simp [h0]; omega
      · by_cases h0 : j = 0
        · simp [h0]
        · simp [h0]; omega

/-! Claim C1. -/

/-- C1 (amended): for a tracked file whose sibling source paths are
pairwise distinct, at most one sibling Node can report Symlinked: a
Symlinked status pins the target entry to a symlink at that node source
path, so a second distinct sibling can never observe S at the same time.
Two or more siblings can simultaneously observe Identical, see the
counterexample. -/
theorem at_most_one_symlinked (fs : Fs) (tf : TFile) (i j fi fj : Nat)
    (hnd : tf.sources.Nodup) (hi : i < tf.sources.length)
    (hj : j < tf.sources.length) (hne : i ≠ j)
    (hS : Node.get_status fs tf fi i = some .S) :
    Node.get_status fs tf fj j ≠ some .S := by
  intro hS2
  have e1 := (status_S_elim hS).2
  have e2 := (status_S_elim hS2).2
  rw [e1] at e2
  injection e2 with e2
  unfold TFile.src at e2
  rw [List.getD_eq_getElem _ _ hi, List.getD_eq_getElem _ _ hj] at e2
  exact hne ((List.Nodup.getElem_inj_iff hnd).mp e2)

/-- C1 witness: on a target symlinked to the first source, the first node
observes S and the theorem rules S out for the second node. -/
theorem at_most_one_symlinked_witness :
    Node.get_status fsB tfB 1 0 = some .S
      ∧ Node.get_status fsB tfB 1 1 ≠ some .S :=
  ⟨by decide, at_most_one_symlinked fsB tfB 0 1 1 1 (by decide) (by decide)
    (by decide) (by decide) (by decide)⟩

/-- C1 counterexample: a target byte-identical to two distinct sources
makes both sibling nodes report C (Identical) in the same state; neither
is demoted to Owned, because the sibling scan runs only after the
content check has failed. -/
theorem two_identical_siblings_cex :
    Node.get_status fsA tfA 1 0 = some .C
      ∧ Node.get_status fsA tfA 1 1 = some .C
      ∧ tfA.sources.Nodup := by decide

/-! Claim C2. -/

/-- C2: on a file shared by two nodes whose target exists and differs in
content from both sources, get_status of either node yields no result at
any recursion depth: the sibling recursion is not bounded, each of the
two nodes re-enters the other without any memoization, so the original
code raises RecursionError instead of terminating. -/
theorem get_status_diverges_on_shared_conflict :
    tfC.sources.length = 2 ∧ isfile fsC tfC.path = true
      ∧ (∀ j, j < 2 → gitFilesEqual fsC (tfC.src j) tfC.path = false)
      ∧ neverReturns fsC tfC 0 ∧ neverReturns fsC tfC 1 := by
  have hall : ∀ j, j < tfC.sources.length →
      isfile fsC tfC.path = true ∧ readlinkOpt fsC tfC.path ≠ some (tfC.src j)
        ∧ gitFilesEqual fsC (tfC.src j) tfC.path = false := by decide
  exact ⟨rfl, by decide, by decide,
    fun fuel => get_status_stuck fsC tfC (by decide) hall fuel 0 (by decide),
    fun fuel => get_status_stuck fsC tfC (by decide) hall fuel 1 (by decide)⟩

/-! Claim C3. -/

/-- C3 (amended): whenever get_status returns a result, that result
follows the ordered decision of the claim, the sibling statuses being
the ones computed one recursion level deeper; the Conflicted outcome
holds exactly when no sibling that yields a status yields C or S. On
states where the sibling scan would have to consult a sibling that
itself diverges, get_status returns nothing at all (see the
counterexample), so the characterization is conditional on a result. -/
theorem get_status_ordered_decision (fuel : Nat) (fs : Fs) (tf : TFile)
    (i : Nat) (s : Status)
    (h : Node.get_status fs tf (fuel+1) i = some s) :
    (s = .N ↔ isfile fs tf.path = false)
  ∧ (s = .S ↔ isfile fs tf.path = true
        ∧ readlinkOpt fs tf.path = some (tf.src i))
  ∧ (s = .C ↔ isfile fs tf.path = true
        ∧ readlinkOpt fs tf.path ≠ some (tf.src i)
        ∧ gitFilesEqual fs (tf.src i) tf.path = true)
  ∧ (s = .O ↔ isfile fs tf.path = true
        ∧ readlinkOpt fs tf.path ≠ some (tf.src i)
        ∧ gitFilesEqual fs (tf.src i) tf.path = false
        ∧ ∃ j, j < tf.sources.length ∧ j ≠ i
            ∧ ∃ s2, Node.get_status fs tf fuel j = some s2
                ∧ (s2 = .C ∨ s2 = .S))
  ∧ (s = .Bang ↔ isfile fs tf.path = true
        ∧ readlinkOpt fs tf.path ≠ some (tf.src i)
        ∧ gitFilesEqual fs (tf.src i) tf.path = false
        ∧ ∀ j, j < tf.sources.length → j ≠ i →
            ∀ s2, Node.get_status fs tf fuel j = some s2 →
              ¬(s2 = .C ∨ s2 = .S)) := by
  rw [get_status_eq] at h
  by_cases h1 : isfile fs tf.path = false
  · rw [if_pos h1] at h
    injection h with h
    subst h
    simp [h1]
  · have hv : isfile fs tf.path = true := by
      cases hval : isfile fs tf.path
      · exact absurd hval h1
      · rfl
    rw [if_neg h1] at h
    by_cases h2 : readlinkOpt fs tf.path = some (tf.src i)
    · rw [if_pos h2] at h
      injection h with h
      subst h
      simp [hv, h2]
    · rw [if_neg h2] at h
      by_cases h3 : gitFilesEqual fs (tf.src i) tf.path = true
      · rw [if_pos h3] at h
        injection h with h
        subst h
        simp [hv, h2, h3]
      · have hb : gitFilesEqual fs (tf.src i) tf.path = false := by
          cases hval : gitFilesEqual fs (tf.src i) tf.path
          · rfl
          · exact absurd hval h3
        rw [if_neg h3] at h
        rcases scanSiblings_some _ _ _ _ h with hs | hs
        · subst hs
          refine ⟨by simp [hv], by simp [h2], by simp [hb], ?_, ?_⟩
          · obtain ⟨j, hjmem, hjne, s2, hs2, hsc⟩ := scanSiblings_O_elim _ _ _ h
            exact iff_of_true rfl
              ⟨hv, h2, hb, j, List.mem_range.mp hjmem, hjne, s2, hs2, hsc⟩
          · constructor
            · intro hOB
              cases hOB
            · intro ⟨_, _, _, hallj⟩
              obtain ⟨j, hjmem, hjne, s2, hs2, hsc⟩ := scanSiblings_O_elim _ _ _ h
              exact absurd hsc (hallj j (List.mem_range.mp hjmem) hjne s2 hs2)
        · subst hs
          refine ⟨by simp [hv], by simp [h2], by simp [hb], ?_, ?_⟩
          · constructor
            · intro hBO
              cases hBO
            · intro ⟨_, _, _, j, hj, hjne, s2, hs2, hsc⟩
              have := scanSiblings_O_of _ _ _ _ j s2 h
                (List.mem_range.mpr hj) hjne hs2 hsc
              cases this
          · refine ⟨fun _ => ⟨hv, h2, hb, ?_⟩, fun _ => rfl⟩
            intro j hj hjne s2 hs2
            obtain ⟨s3, hs3, hnsc⟩ :=
              scanSiblings_Bang_elim _ _ _ h j (List.mem_range.mpr hj) hjne
            have hs3b : Node.get_status fs tf fuel j = some s3 := hs3
            rw [hs2] at hs3b
            injection hs3b with hs3b
            rw [← hs3b] at hnsc
            exact hnsc

/-- C3 witness: on an empty filesystem the single node returns N, and the
theorem characterizes N as the target not being a file. -/
theorem get_status_ordered_decision_witness :
    (Status.N = Status.N ↔ isfile fsW3 tfW3.path = false) :=
  (get_status_ordered_decision 0 fsW3 tfW3 0 .N (by decide)).1

/-- C3 counterexample: on a target that exists, is no symlink, and
differs from both of two sibling sources, the claim prescribes the
result Conflicted, but get_status yields no result at any recursion
depth. -/
theorem get_status_no_result_cex :
    neverReturns fsD tfD 0 ∧ neverReturns fsD tfD 1
      ∧ isfile fsD tfD.path = true ∧ readlinkOpt fsD tfD.path = none
      ∧ gitFilesEqual fsD (tfD.src 0) tfD.path = false
      ∧ gitFilesEqual fsD (tfD.src 1) tfD.path = false := by
  have hall : ∀ j, j < tfD.sources.length →
      isfile fsD tfD.path = true ∧ readlinkOpt fsD tfD.path ≠ some (tfD.src j)
        ∧ gitFilesEqual fsD (tfD.src j) tfD.path = false := by decide
  exact ⟨fun fuel => get_status_stuck fsD tfD (by decide) hall fuel 0 (by decide),
    fun fuel => get_status_stuck fsD tfD (by decide) hall fuel 1 (by decide),
    by decide, by decide, by decide, by decide⟩

/-! Claim C4. -/

/-- C4: a Node or a Layer whose computed status is Owned or Conflicted
rejects merge and unmerge with the Not supported exception before any
filesystem call, so the filesystem is returned unchanged. At the layer
level the Conflicted case is vacuous, node conflicts aggregate to N. -/
theorem owned_conflicted_transitions_fail (fuel : Nat) (fs : Fs) (tf : TFile)
    (i : Nat) (L : Layer) (st : Status) (hst : st = .O ∨ st = .Bang) :
    (Node.get_status fs tf fuel i = some st →
        Node.merge fuel fs tf i = some (fs, some .unsupportedTransition)
      ∧ Node.unmerge fuel fs tf i = some (fs, some .unsupportedTransition))
  ∧ (Layer.get_status fuel fs L = some st →
        Layer.merge fuel fs L = some (fs, some .unsupportedTransition, [])
      ∧ Layer.unmerge fuel fs L = some (fs, some .unsupportedTransition)) := by
  have hcsn : ¬(st = .C ∨ st = .S ∨ st = .N) := by
    rcases hst with h | h <;> subst h <;> intro hc <;>
      rcases hc with h | h | h <;> cases h
  constructor
  · intro hn
    constructor
    · simp [Node.merge, hn, hcsn]
    · simp [Node.unmerge, hn, hcsn]
  · intro hl
    constructor
    · simp [Layer.merge, hl, hcsn]
    · simp [Layer.unmerge, hl, hcsn]

/-- C4 witness: a node observing its target as owned by the node of the
byte-identical second source rejects both transitions unchanged. -/
theorem owned_conflicted_transitions_fail_witness :
    Node.merge 2 fsE tfE 0 = some (fsE, some .unsupportedTransition)
      ∧ Node.unmerge 2 fsE tfE 0 = some (fsE, some .unsupportedTransition) :=
  (owned_conflicted_transitions_fail 2 fsE tfE 0 LE4 .O (Or.inl rfl)).1 (by decide)

/-! Claim C5: helper lemmas evaluating Node.merge from each status. -/

theorem node_merge_from_N {fs : Fs} {tf : TFile} {fuel i : Nat}
    (h : Node.get_status fs tf fuel i = some .N)
    (hab : fs tf.path = .absent) :
    Node.merge fuel fs tf i
      = some (updateFs fs tf.path (.symlink (tf.src i)), none) := by
  simp [Node.merge, Node.unmerge, h, symlinkOp, hab]

theorem node_merge_from_N_present {fs : Fs} {tf : TFile} {fuel i : Nat}
    (h : Node.get_status fs tf fuel i = some .N)
    (hab : fs tf.path ≠ .absent) :
    Node.merge fuel fs tf i = some (fs, some .fileExists) := by
  simp [Node.merge, Node.unmerge, h, symlinkOp, hab]

theorem node_merge_from_C {fs : Fs} {tf : TFile} {fuel i : Nat}
    (h : Node.get_status fs tf fuel i = some .C) :
    Node.merge fuel fs tf i
      = some (updateFs fs tf.path (.symlink (tf.src i)), none) := by
  have hne : fs tf.path ≠ .absent := ne_absent_of_isfile (status_C_elim h).1
  simp [Node.merge, Node.unmerge, h, removeOp, symlinkOp, hne,
    updateFs_apply_self, updateFs_collapse]

theorem node_merge_from_S {fs : Fs} {tf : TFile} {fuel i : Nat}
    (h : Node.get_status fs tf fuel i = some .S) :
    Node.merge fuel fs tf i = some (fs, none) := by
  simp [Node.merge, h]

theorem node_unmerge_from_S {fs : Fs} {tf : TFile} {fuel i : Nat}
    (h : Node.get_status fs tf fuel i = some .S) :
    Node.unmerge fuel fs tf i = some (updateFs fs tf.path .absent, none) := by
  have hne : fs tf.path ≠ .absent := ne_absent_of_isfile (status_S_elim h).1
  simp [Node.unmerge, h, removeOp, hne]

/-- C5 (amended): when the node source entry is a regular file distinct
from the target path, and the target path carries no entry in case the
starting status is N (so the target is not a dangling symlink), merge
followed by unmerge succeeds from each of the three allowed statuses and
ends with the target entry absent and the status Missing. -/
theorem merge_unmerge_round_trip (fuel : Nat) (fs : Fs) (tf : TFile)
    (i : Nat) (c : String) (st : Status)
    (hsrc : fs (tf.src i) = .file c) (hne : tf.src i ≠ tf.path)
    (hst : Node.get_status fs tf fuel i = some st)
    (hmem : st = .N ∨ st = .C ∨ st = .S)
    (habs : st = .N → fs tf.path = .absent) :
    Node.merge fuel fs tf i
        = some (updateFs fs tf.path (.symlink (tf.src i)), none)
  ∧ (∀ f, Node.unmerge (f+1) (updateFs fs tf.path (.symlink (tf.src i))) tf i
        = some (updateFs fs tf.path .absent, none))
  ∧ updateFs fs tf.path .absent tf.path = .absent
  ∧ (∀ f, Node.get_status (updateFs fs tf.path .absent) tf (f+1) i
        = some .N) := by
  have hf1p : updateFs fs tf.path (.symlink (tf.src i)) tf.path
      = .symlink (tf.src i) := updateFs_apply_self fs tf.path _
  have hf1s : updateFs fs tf.path (.symlink (tf.src i)) (tf.src i)
      = .file c := by
    rw [updateFs_apply_ne fs tf.path (tf.src i) _ hne]
    exact hsrc
  have hS1 : ∀ f,
      Node.get_status (updateFs fs tf.path (.symlink (tf.src i))) tf (f+1) i
        = some .S :=
    fun f => status_S_intro (isfile_link_file hf1p hf1s) hf1p f
  refine ⟨?_, ?_, updateFs_apply_self fs tf.path _, ?_⟩
  · rcases hmem with hm | hm | hm
    · subst hm
      exact node_merge_from_N hst (habs rfl)
    · subst hm
      exact node_merge_from_C hst
    · subst hm
      rw [node_merge_from_S hst]
      rw [show updateFs fs tf.path (.symlink (tf.src i)) = fs from by
        rw [← (status_S_elim hst).2]; exact updateFs_keep fs tf.path]
  · intro f
    rw [node_unmerge_from_S (hS1 f), updateFs_collapse]
  · intro f
    exact status_N_intro (isfile_absent (updateFs_apply_self fs tf.path _)) f i

/-- C5 witness: the round trip applied to a missing target with a regular
source file. -/
theorem merge_unmerge_round_trip_witness :
    Node.merge 1 fsF tfF 0
      = some (updateFs fsF tfF.path (.symlink (tfF.src 0)), none) :=
  (merge_unmerge_round_trip 1 fsF tfF 0 "x" .N (by decide) (by decide)
    (by decide) (Or.inl rfl) (fun _ => by decide)).1

/-- C5 counterexample: two starting states of status Missing where the
claimed round trip fails. With a dangling symlink at the target, merge
raises FileExistsError inside os.symlink and the unmerge afterwards is a
no-op, so the target entry survives. With an absent source, merge
succeeds but creates a dangling symlink, the status stays Missing and
unmerge refuses to remove anything, so the target entry again
survives. -/
theorem merge_dangling_target_cex :
    (Node.get_status fsG tfG 1 0 = some .N
      ∧ Node.merge 1 fsG tfG 0 = some (fsG, some .fileExists)
      ∧ Node.unmerge 1 fsG tfG 0 = some (fsG, none)
      ∧ fsG tfG.path = .symlink 55)
  ∧ (Node.get_status fsG2 tfG2 1 0 = some .N
      ∧ Node.merge 1 fsG2 tfG2 0
          = some (updateFs fsG2 tfG2.path (.symlink (tfG2.src 0)), none)
      ∧ Node.unmerge 1 (updateFs fsG2 tfG2.path (.symlink (tfG2.src 0))) tfG2 0
          = some (updateFs fsG2 tfG2.path (.symlink (tfG2.src 0)), none)
      ∧ updateFs fsG2 tfG2.path (.symlink (tfG2.src 0)) tfG2.path
          ≠ .absent) :=
  ⟨⟨by decide, rfl, rfl, by decide⟩, ⟨by decide, rfl, rfl, by decide⟩⟩

/-! Claim C6: helper lemmas about successful merges. -/

theorem node_merge_success_shape {fuel : Nat} {fs fs1 : Fs} {tf : TFile}
    {i : Nat}
    (h : Node.merge fuel fs tf i = some (fs1, none)) :
    fs1 tf.path = .symlink (tf.src i) ∧ ∀ q, q ≠ tf.path → fs1 q = fs q := by
  cases hst : Node.get_status fs tf fuel i with
  | none => simp [Node.merge, hst] at h
  | some st =>
    cases st with
    | N =>
      by_cases hab : fs tf.path = .absent
      · rw [node_merge_from_N hst hab] at h
        injection h with h
        injection h with h1 h2
        subst h1
        exact ⟨updateFs_apply_self fs tf.path _,
          fun q hq => updateFs_apply_ne fs tf.path q _ hq⟩
      · rw [node_merge_from_N_present hst hab] at h
        injection h with h
        injection h with h1 h2
        cases h2
    | C =>
      rw [node_merge_from_C hst] at h
      injection h with h
      injection h with h1 h2
      subst h1
      exact ⟨updateFs_apply_self fs tf.path _,
        fun q hq => updateFs_apply_ne fs tf.path q _ hq⟩
    | S =>
      rw [node_merge_from_S hst] at h
      injection h with h
      injection h with h1 h2
      subst h1
      exact ⟨(status_S_elim hst).2, fun q _ => rfl⟩
    | O => simp [Node.merge, hst] at h
    | Bang => simp [Node.merge, hst] at h

theorem node_merge_success_post {fuel : Nat} {fs fs1 : Fs} {tf : TFile}
    {i : Nat} {c : String}
    (hsrc : fs (tf.src i) = .file c) (hne : tf.src i ≠ tf.path)
    (h : Node.merge fuel fs tf i = some (fs1, none)) :
    (∀ f, Node.get_status fs1 tf (f+1) i = some .S)
      ∧ ∀ f, Node.merge (f+1) fs1 tf i = some (fs1, none) := by
  obtain ⟨hp, hq⟩ := node_merge_success_shape h
  have hs1 : fs1 (tf.src i) = .file c := by
    rw [hq _ hne]
    exact hsrc
  have hS : ∀ f, Node.get_status fs1 tf (f+1) i = some .S :=
    fun f => status_S_intro (isfile_link_file hp hs1) hp f
  exact ⟨hS, fun f => node_merge_from_S (hS f)⟩

theorem scanStatus_all_S {fuel : Nat} {fs : Fs} :
    ∀ (l : List NodeRef) (acc : Status),
      (∀ n ∈ l, nodeStat fuel fs n = some .S) →
      Layer.scanStatus fuel fs acc l = some acc := by
  intro l
  induction l with
  | nil => intro acc _; rfl
  | cons n rest ih =>
    intro acc hall
    have hn := hall n (List.mem_cons_self _ _)
    have hrest := ih acc (fun m hm => hall m (List.mem_cons_of_mem _ hm))
    simp [Layer.scanStatus, hn, hrest]

theorem scanStatus_C_ne_S {fuel : Nat} {fs : Fs} :
    ∀ l : List NodeRef, Layer.scanStatus fuel fs .C l ≠ some .S := by
  intro l
  induction l with
  | nil => intro h; simp [Layer.scanStatus] at h
  | cons n rest ih =>
    intro h
    cases hn : nodeStat fuel fs n with
    | none => simp [Layer.scanStatus, hn] at h
    | some s =>
      cases s with
      | N => simp [Layer.scanStatus, hn] at h
      | Bang => simp [Layer.scanStatus, hn] at h
      | O => simp [Layer.scanStatus, hn] at h
      | S => exact ih (by simpa [Layer.scanStatus, hn] using h)
      | C => exact ih (by simpa [Layer.scanStatus, hn] using h)

theorem scanStatus_S_elim {fuel : Nat} {fs : Fs} :
    ∀ (l : List NodeRef) (acc : Status),
      Layer.scanStatus fuel fs acc l = some .S →
      ∀ n ∈ l, nodeStat fuel fs n = some .S := by
  intro l
  induction l with
  | nil =>
    intro acc _ n hn
    cases hn
  | cons m rest ih =>
    intro acc h n hn
    cases hm : nodeStat fuel fs m with
    | none => simp [Layer.scanStatus, hm] at h
    | some s =>
      cases s with
      | N => simp [Layer.scanStatus, hm] at h
      | Bang => simp [Layer.scanStatus, hm] at h
      | O => simp [Layer.scanStatus, hm] at h
      | S =>
        replace h : Layer.scanStatus fuel fs acc rest = some .S := by
          simpa [Layer.scanStatus, hm] using h
        rcases List.mem_cons.mp hn with he | hr
        · subst he
          exact hm
        · exact ih acc h n hr
      | C =>
        replace h : Layer.scanStatus fuel fs .C rest = some .S := by
          simpa [Layer.scanStatus, hm] using h
        exact absurd h (scanStatus_C_ne_S rest)

theorem mergeNodes_success (fuel : Nat) :
    ∀ (nodes : List NodeRef) (fs fs1 : Fs),
      (∀ n ∈ nodes, ∀ m ∈ nodes, NodeRef.src n ≠ NodeRef.tgt m) →
      nodes.Pairwise (fun a b => NodeRef.tgt a ≠ NodeRef.tgt b) →
      (∀ n ∈ nodes, ∃ c, fs (NodeRef.src n) = .file c) →
      Layer.mergeNodes fuel fs nodes = some (fs1, none) →
      (∀ n ∈ nodes, fs1 (NodeRef.tgt n) = .symlink (NodeRef.src n)
          ∧ ∃ c, fs1 (NodeRef.src n) = .file c)
        ∧ ∀ q, (∀ n ∈ nodes, q ≠ NodeRef.tgt n) → fs1 q = fs q := by
  intro nodes
  induction nodes with
  | nil =>
    intro fs fs1 _ _ _ h
    have h2 : fs = fs1 := by
      have h3 : (some (fs, none) : Option (Fs × Option Err))
          = some (fs1, none) := h
      simpa using h3
    subst h2
    exact ⟨fun n hn => absurd hn (List.not_mem_nil n), fun q _ => rfl⟩
  | cons n rest ih =>
    intro fs fs1 hST hTT hF h
    obtain ⟨c, hc⟩ := hF n (List.mem_cons_self _ _)
    have hnn : n.tf.src n.idx ≠ n.tf.path :=
      hST n (List.mem_cons_self _ _) n (List.mem_cons_self _ _)
    cases hm : Node.merge fuel fs n.tf n.idx with
    | none => simp [Layer.mergeNodes, hm] at h
    | some pr =>
      obtain ⟨fsa, err⟩ := pr
      cases err with
      | some e => simp [Layer.mergeNodes, hm] at h
      | none =>
        replace h : Layer.mergeNodes fuel fsa rest = some (fs1, none) := by
          simpa [Layer.mergeNodes, hm] using h
        obtain ⟨hpa, hqa⟩ := node_merge_success_shape hm
        have hSTr : ∀ a ∈ rest, ∀ b ∈ rest, NodeRef.src a ≠ NodeRef.tgt b :=
          fun a ha b hb => hST a (List.mem_cons_of_mem _ ha) b
            (List.mem_cons_of_mem _ hb)
        have hTTr := (List.pairwise_cons.mp hTT).2
        have hhead := (List.pairwise_cons.mp hTT).1
        have hFr : ∀ a ∈ rest, ∃ c2, fsa (NodeRef.src a) = .file c2 := by
          intro a ha
          obtain ⟨c2, hc2a⟩ := hF a (List.mem_cons_of_mem _ ha)
          refine ⟨c2, ?_⟩
          rw [hqa (NodeRef.src a)
            (hST a (List.mem_cons_of_mem _ ha) n (List.mem_cons_self _ _))]
          exact hc2a
        obtain ⟨hall_r, hkeep_r⟩ := ih fsa fs1 hSTr hTTr hFr h
        constructor
        · intro m hm2
          rcases List.mem_cons.mp hm2 with he | hr
          · subst he
            constructor
            · rw [hkeep_r (NodeRef.tgt m) (fun b hb => hhead b hb)]
              exact hpa
            · refine ⟨c, ?_⟩
              rw [hkeep_r (NodeRef.src m) (fun b hb =>
                hST m (List.mem_cons_self _ _) b (List.mem_cons_of_mem _ hb))]
              rw [show fsa (NodeRef.src m) = fs (NodeRef.src m) from hqa _ hnn]
              exact hc
          · exact hall_r m hr
        · intro q hq
          rw [hkeep_r q (fun b hb => hq b (List.mem_cons_of_mem _ hb))]
          exact hqa q (hq n (List.mem_cons_self _ _))

theorem layer_merge_success {fuel : Nat} {fs fs1 : Fs} {L : Layer}
    {hooks : List Path}
    (hST : ∀ n ∈ L.nodes, ∀ m ∈ L.nodes, NodeRef.src n ≠ NodeRef.tgt m)
    (hTT : L.nodes.Pairwise (fun a b => NodeRef.tgt a ≠ NodeRef.tgt b))
    (hF : ∀ n ∈ L.nodes, ∃ c, fs (NodeRef.src n) = .file c)
    (h : Layer.merge fuel fs L = some (fs1, none, hooks)) :
    (∀ f, Layer.get_status (f+1) fs1 L = some .S)
      ∧ ∀ f, Layer.merge (f+1) fs1 L = some (fs1, none, []) := by
  have main : ∀ n ∈ L.nodes, fs1 (NodeRef.tgt n) = .symlink (NodeRef.src n)
      ∧ ∃ c, fs1 (NodeRef.src n) = .file c := by
    cases hls : Layer.get_status fuel fs L with
    | none => simp [Layer.merge, hls] at h
    | some st =>
      cases st with
      | O => simp [Layer.merge, hls] at h
      | Bang => simp [Layer.merge, hls] at h
      | S =>
        have h2 : Layer.merge fuel fs L = some (fs, none, []) := by
          simp [Layer.merge, hls]
        have h3 := h.symm.trans h2
        injection h3 with h4
        injection h4 with h5 h6
        subst h5
        have hSnodes := scanStatus_S_elim L.nodes .S hls
        exact fun n hn => ⟨(status_S_elim (hSnodes n hn)).2, hF n hn⟩
      | N =>
        cases hmn0 : Layer.mergeNodes fuel fs L.nodes with
        | none => simp [Layer.merge, hls, hmn0] at h
        | some pr =>
          obtain ⟨fsb, err⟩ := pr
          cases err with
          | some e => simp [Layer.merge, hls, hmn0] at h
          | none =>
            have h2 : Layer.merge fuel fs L
                = some (fsb, none, L.merge_hooks) := by
              simp [Layer.merge, hls, hmn0]
            have h3 := h.symm.trans h2
            injection h3 with h4
            injection h4 with h5 h6
            rw [← h5] at hmn0
            exact fun n hn =>
              (mergeNodes_success fuel L.nodes fs fs1 hST hTT hF hmn0).1 n hn
      | C =>
        cases hmn0 : Layer.mergeNodes fuel fs L.nodes with
        | none => simp [Layer.merge, hls, hmn0] at h
        | some pr =>
          obtain ⟨fsb, err⟩ := pr
          cases err with
          | some e => simp [Layer.merge, hls, hmn0] at h
          | none =>
            have h2 : Layer.merge fuel fs L
                = some (fsb, none, L.merge_hooks) := by
              simp [Layer.merge, hls, hmn0]
            have h3 := h.symm.trans h2
            injection h3 with h4
            injection h4 with h5 h6
            rw [← h5] at hmn0
            exact fun n hn =>
              (mergeNodes_success fuel L.nodes fs fs1 hST hTT hF hmn0).1 n hn
  have hnodeS : ∀ f, ∀ n ∈ L.nodes, nodeStat (f+1) fs1 n = some .S := by
    intro f n hn
    obtain ⟨hp, c, hsrc⟩ := main n hn
    exact status_S_intro (isfile_link_file hp hsrc) hp f
  have hlayerS : ∀ f, Layer.get_status (f+1) fs1 L = some .S :=
    fun f => scanStatus_all_S L.nodes .S (hnodeS f)
  exact ⟨hlayerS, fun f => by simp [Layer.merge, hlayerS f]⟩

/-- C6 (amended): whenever a Node merge succeeds on a node whose source
entry is a regular file distinct from the target, the status afterwards
is Symlinked and a second merge is a no-op returning the same state; the
same holds for a Layer merge on a layer whose node sources are regular
files, never equal to any node target, and whose targets are pairwise
distinct, except that the no-op second merge runs no hook. Without the
regular-source assumption merge can succeed while leaving status
Missing, and a second merge then raises, see the counterexample. -/
theorem merge_idempotent :
    (∀ (fuel : Nat) (fs : Fs) (tf : TFile) (i : Nat) (c : String) (fs1 : Fs),
        fs (tf.src i) = .file c → tf.src i ≠ tf.path →
        Node.merge fuel fs tf i = some (fs1, none) →
        (∀ f, Node.get_status fs1 tf (f+1) i = some .S)
          ∧ ∀ f, Node.merge (f+1) fs1 tf i = some (fs1, none))
  ∧ ∀ (fuel : Nat) (fs : Fs) (L : Layer) (fs1 : Fs) (hooks : List Path),
      (∀ n ∈ L.nodes, ∀ m ∈ L.nodes, NodeRef.src n ≠ NodeRef.tgt m) →
      L.nodes.Pairwise (fun a b => NodeRef.tgt a ≠ NodeRef.tgt b) →
      (∀ n ∈ L.nodes, ∃ c, fs (NodeRef.src n) = .file c) →
      Layer.merge fuel fs L = some (fs1, none, hooks) →
      (∀ f, Layer.get_status (f+1) fs1 L = some .S)
        ∧ ∀ f, Layer.merge (f+1) fs1 L = some (fs1, none, []) :=
  ⟨fun _ _ _ _ _ _ hsrc hne h => node_merge_success_post hsrc hne h,
   fun _ _ _ _ _ hST hTT hF h => layer_merge_success hST hTT hF h⟩

/-- C6 witness: a one-node layer with one hook merges from Missing into
the symlinked state and the second merge is a no-op that runs no hook. -/
theorem merge_idempotent_witness :
    Layer.merge 1 (updateFs fsI tfI.path (.symlink (tfI.src 0))) LI
      = some (updateFs fsI tfI.path (.symlink (tfI.src 0)), none, []) :=
  (merge_idempotent.2 1 fsI LI (updateFs fsI tfI.path (.symlink (tfI.src 0)))
    [7] (by decide)
    (by
      show List.Pairwise _ [(⟨tfI, 0⟩ : NodeRef)]
      exact List.Pairwise.cons (fun b hb => absurd hb (List.not_mem_nil b))
        List.Pairwise.nil)
    (by
      intro n hn
      simp only [LI, List.mem_singleton] at hn
      subst hn
      exact ⟨"z", by decide⟩) rfl).2 0

/-- C6 counterexample: on an absent target whose source entry is also
absent, merge succeeds and creates a dangling symlink, the status after
one merge is Missing rather than Symlinked, and the second merge raises
FileExistsError instead of being a no-op. -/
theorem merge_idempotent_cex :
    Node.merge 1 fsH tfH 0
        = some (updateFs fsH tfH.path (.symlink (tfH.src 0)), none)
      ∧ Node.get_status (updateFs fsH tfH.path (.symlink (tfH.src 0))) tfH 1 0
        = some .N
      ∧ Node.merge 1 (updateFs fsH tfH.path (.symlink (tfH.src 0))) tfH 0
        = some (updateFs fsH tfH.path (.symlink (tfH.src 0)),
            some .fileExists) :=
  ⟨rfl, by decide, rfl⟩

/-! Claim C7. -/

/-- C7 (amended): when Popen and the output communication both succeed,
git_diff returns exactly the byte-equality verdict of the external diff
on the two paths, without warning; an error inside communicate or decode
is caught and yields False plus a warning; but a failure of the Popen
call itself is outside the try block, so it escapes to the caller
instead of being converted to False. The last conjunct states that the
oracle verdict means both entries exist and are byte-identical. -/
theorem git_diff_contract (fs : Fs) (p q : Path) (out : String) :
    git_diff ⟨true, true, gitStdout fs p q⟩
        = ⟨false, some (gitFilesEqual fs p q), false⟩
  ∧ git_diff ⟨true, false, out⟩ = ⟨false, some false, true⟩
  ∧ (git_diff ⟨false, true, out⟩).raised = true
  ∧ (gitFilesEqual fs p q = true ↔ fs p ≠ .absent ∧ fs p = fs q) := by
  refine ⟨?_, rfl, rfl, ?_⟩
  · have key : ∀ b : Bool, (pyStrip (if b then "" else "diff") == "") = b := by
      decide
    show GitResult.mk false (some (pyStrip (gitStdout fs p q) == "")) false
      = GitResult.mk false (some (gitFilesEqual fs p q)) false
    rw [show gitStdout fs p q
      = (if gitFilesEqual fs p q then "" else "diff") from rfl]
    rw [key]
  · cases e1 : fs p <;> cases e2 : fs q <;> simp [gitFilesEqual, e1, e2]

/-- C7 counterexample: a run where the Popen call fails (for example git
is not installed) raises to the caller and returns nothing, against the
claim that git_diff never raises. -/
theorem git_diff_raises_cex :
    (git_diff ⟨false, true, ""⟩).raised = true
      ∧ (git_diff ⟨false, true, ""⟩).value = none := by decide

/-! Claim C8: the characterization of the aggregation loop. -/

theorem scanStatus_char (fuel : Nat) (fs : Fs) :
    ∀ (l : List NodeRef) (acc st : Status), (acc = .S ∨ acc = .C) →
      Layer.scanStatus fuel fs acc l = some st →
      ((st = .N ↔ ∃ pre n post, l = pre ++ n :: post
          ∧ (∀ m ∈ pre, goodSC fuel fs m)
          ∧ (nodeStat fuel fs n = some .N ∨ nodeStat fuel fs n = some .Bang))
      ∧ (st = .O ↔ ∃ pre n post, l = pre ++ n :: post
          ∧ (∀ m ∈ pre, goodSC fuel fs m)
          ∧ nodeStat fuel fs n = some .O)
      ∧ (st = .C ↔ (∀ m ∈ l, goodSC fuel fs m)
          ∧ (acc = .C ∨ ∃ m ∈ l, nodeStat fuel fs m = some .C))
      ∧ (st = .S ↔ acc = .S ∧ ∀ m ∈ l, nodeStat fuel fs m = some .S)) := by
  intro l
  induction l with
  | nil =>
    intro acc st hacc h
    replace h : (some acc : Option Status) = some st := h
    injection h with h
    subst h
    rcases hacc with ha | ha <;> subst ha
    · refine ⟨?_, ?_, ?_, ?_⟩
      · refine iff_of_false (by intro hc; cases hc) ?_
        rintro ⟨pre, n, post, hl, -, -⟩
        exact absurd hl.symm (by simp)
      · refine iff_of_false (by intro hc; cases hc) ?_
        rintro ⟨pre, n, post, hl, -, -⟩
        exact absurd hl.symm (by simp)
      · refine iff_of_false (by intro hc; cases hc) ?_
        rintro ⟨-, hC | ⟨m, hm, -⟩⟩
        · cases hC
        · cases hm
      · exact iff_of_true rfl ⟨rfl, fun m hm => absurd hm (List.not_mem_nil m)⟩
    · refine ⟨?_, ?_, ?_, ?_⟩
      · refine iff_of_false (by intro hc; cases hc) ?_
        rintro ⟨pre, n, post, hl, -, -⟩
        exact absurd hl.symm (by simp)
      · refine iff_of_false (by intro hc; cases hc) ?_
        rintro ⟨pre, n, post, hl, -, -⟩
        exact absurd hl.symm (by simp)
      · exact iff_of_true rfl
          ⟨fun m hm => absurd hm (List.not_mem_nil m), Or.inl rfl⟩
      · refine iff_of_false (by intro hc; cases hc) ?_
        rintro ⟨hS, -⟩
        cases hS
  | cons n rest ih =>
    intro acc st hacc h
    cases hn : nodeStat fuel fs n with
    | none => simp [Layer.scanStatus, hn] at h
    | some s =>
      cases s with
      | N =>
        replace h : (some Status.N : Option Status) = some st := by
          simpa [Layer.scanStatus, hn] using h
        injection h with h
        subst h
        refine ⟨?_, ?_, ?_, ?_⟩
        · exact iff_of_true rfl ⟨[], n, rest, rfl,
            fun m hm => absurd hm (List.not_mem_nil m), Or.inl hn⟩
        · refine iff_of_false (by intro hc; cases hc) ?_
          rintro ⟨pre, m, post, hl, hpre, hm⟩
          cases pre with
          | nil =>
            injection hl with e1 e2
            subst e1
            rw [hn] at hm
            cases hm
          | cons p pre2 =>
            injection hl with e1 e2
            subst e1
            rcases hpre n (List.mem_cons_self _ _) with hg | hg <;>
              rw [hn] at hg <;> cases hg
        · refine iff_of_false (by intro hc; cases hc) ?_
          rintro ⟨hall, -⟩
          rcases hall n (List.mem_cons_self _ _) with hg | hg <;>
            rw [hn] at hg <;> cases hg
        · refine iff_of_false (by intro hc; cases hc) ?_
          rintro ⟨-, hall⟩
          have hg := hall n (List.mem_cons_self _ _)
          rw [hn] at hg
          cases hg
      | Bang =>
        replace h : (some Status.N : Option Status) = some st := by
          simpa [Layer.scanStatus, hn] using h
        injection h with h
        subst h
        refine ⟨?_, ?_, ?_, ?_⟩
        · exact iff_of_true rfl ⟨[], n, rest, rfl,
            fun m hm => absurd hm (List.not_mem_nil m), Or.inr hn⟩
        · refine iff_of_false (by intro hc; cases hc) ?_
          rintro ⟨pre, m, post, hl, hpre, hm⟩
          cases pre with
          | nil =>
            injection hl with e1 e2
            subst e1
            rw [hn] at hm
            cases hm
          | cons p pre2 =>
            injection hl with e1 e2
            subst e1
            rcases hpre n (List.mem_cons_self _ _) with hg | hg <;>
              rw [hn] at hg <;> cases hg
        · refine iff_of_false (by intro hc; cases hc) ?_
          rintro ⟨hall, -⟩
          rcases hall n (List.mem_cons_self _ _) with hg | hg <;>
            rw [hn] at hg <;> cases hg
        · refine iff_of_false (by intro hc; cases hc) ?_
          rintro ⟨-, hall⟩
          have hg := hall n (List.mem_cons_self _ _)
          rw [hn] at hg
          cases hg
      | O =>
        replace h : (some Status.O : Option Status) = some st := by
          simpa [Layer.scanStatus, hn] using h
        injection h with h
        subst h
        refine ⟨?_, ?_, ?_, ?_⟩
        · refine iff_of_false (by intro hc; cases hc) ?_
          rintro ⟨pre, m, post, hl, hpre, hm⟩
          cases pre with
          | nil =>
            injection hl with e1 e2
            subst e1
            rcases hm with hm | hm <;> rw [hn] at hm <;> cases hm
          | cons p pre2 =>
            injection hl with e1 e2
            subst e1
            rcases hpre n (List.mem_cons_self _ _) with hg | hg <;>
              rw [hn] at hg <;> cases hg
        · exact iff_of_true rfl ⟨[], n, rest, rfl,
            fun m hm => absurd hm (List.not_mem_nil m), hn⟩
        · refine iff_of_false (by intro hc; cases hc) ?_
          rintro ⟨hall, -⟩
          rcases hall n (List.mem_cons_self _ _) with hg | hg <;>
            rw [hn] at hg <;> cases hg
        · refine iff_of_false (by intro hc; cases hc) ?_
          rintro ⟨-, hall⟩
          have hg := hall n (List.mem_cons_self _ _)
          rw [hn] at hg
          cases hg
      | S =>
        replace h : Layer.scanStatus fuel fs acc rest = some st := by
          simpa [Layer.scanStatus, hn] using h
        obtain ⟨i1, i2, i3, i4⟩ := ih acc st hacc h
        refine ⟨?_, ?_, ?_, ?_⟩
        · rw [i1]
          constructor
          · rintro ⟨pre, m, post, hl, hpre, hm⟩
            refine ⟨n :: pre, m, post, by rw [hl]; rfl, ?_, hm⟩
            intro x hx
            rcases List.mem_cons.mp hx with he | hr
            · subst he
              exact Or.inl hn
            · exact hpre x hr
          · rintro ⟨pre, m, post, hl, hpre, hm⟩
            cases pre with
            | nil =>
              injection hl with e1 e2
              subst e1
              rcases hm with hm | hm <;> rw [hn] at hm <;> cases hm
            | cons p pre2 =>
              injection hl with e1 e2
              exact ⟨pre2, m, post, e2,
                fun x hx => hpre x (List.mem_cons_of_mem _ hx), hm⟩
        · rw [i2]
          constructor
          · rintro ⟨pre, m, post, hl, hpre, hm⟩
            refine ⟨n :: pre, m, post, by rw [hl]; rfl, ?_, hm⟩
            intro x hx
            rcases List.mem_cons.mp hx with he | hr
            · subst he
              exact Or.inl hn
            · exact hpre x hr
          · rintro ⟨pre, m, post, hl, hpre, hm⟩
            cases pre with
            | nil =>
              injection hl with e1 e2
              subst e1
              rw [hn] at hm
              cases hm
            | cons p pre2 =>
              injection hl with e1 e2
              exact ⟨pre2, m, post, e2,
                fun x hx => hpre x (List.mem_cons_of_mem _ hx), hm⟩
        · rw [i3]
          constructor
          · rintro ⟨hall, hor⟩
            refine ⟨?_, ?_⟩
            · intro x hx
              rcases List.mem_cons.mp hx with he | hr
              · subst he
                exact Or.inl hn
              · exact hall x hr
            · rcases hor with ha | ⟨m, hm, hmc⟩
              · exact Or.inl ha
              · exact Or.inr ⟨m, List.mem_cons_of_mem _ hm, hmc⟩
          · rintro ⟨hall, hor⟩
            refine ⟨fun x hx => hall x (List.mem_cons_of_mem _ hx), ?_⟩
            rcases hor with ha | ⟨m, hm, hmc⟩
            · exact Or.inl ha
            · rcases List.mem_cons.mp hm with he | hr
              · subst he
                rw [hn] at hmc
                cases hmc
              · exact Or.inr ⟨m, hr, hmc⟩
        · rw [i4]
          constructor
          · rintro ⟨ha, hall⟩
            refine ⟨ha, ?_⟩
            intro x hx
            rcases List.mem_cons.mp hx with he | hr
            · subst he
              exact hn
            · exact hall x hr
          · rintro ⟨ha, hall⟩
            exact ⟨ha, fun x hx => hall x (List.mem_cons_of_mem _ hx)⟩
      | C =>
        replace h : Layer.scanStatus fuel fs .C rest = some st := by
          simpa [Layer.scanStatus, hn] using h
        obtain ⟨i1, i2, i3, i4⟩ := ih .C st (Or.inr rfl) h
        refine ⟨?_, ?_, ?_, ?_⟩
        · rw [i1]
          constructor
          · rintro ⟨pre, m, post, hl, hpre, hm⟩
            refine ⟨n :: pre, m, post, by rw [hl]; rfl, ?_, hm⟩
            intro x hx
            rcases List.mem_cons.mp hx with he | hr
            · subst he
              exact Or.inr hn
            · exact hpre x hr
          · rintro ⟨pre, m, post, hl, hpre, hm⟩
            cases pre with
            | nil =>
              injection hl with e1 e2
              subst e1
              rcases hm with hm | hm <;> rw [hn] at hm <;> cases hm
            | cons p pre2 =>
              injection hl with e1 e2
              exact ⟨pre2, m, post, e2,
                fun x hx => hpre x (List.mem_cons_of_mem _ hx), hm⟩
        · rw [i2]
          constructor
          · rintro ⟨pre, m, post, hl, hpre, hm⟩
            refine ⟨n :: pre, m, post, by rw [hl]; rfl, ?_, hm⟩
            intro x hx
            rcases List.mem_cons.mp hx with he | hr
            · subst he
              exact Or.inr hn
            · exact hpre x hr
          · rintro ⟨pre, m, post, hl, hpre, hm⟩
            cases pre with
            | nil =>
              injection hl with e1 e2
              subst e1
              rw [hn] at hm
              cases hm
            | cons p pre2 =>
              injection hl with e1 e2
              exact ⟨pre2, m, post, e2,
                fun x hx => hpre x (List.mem_cons_of_mem _ hx), hm⟩
        · constructor
          · intro hst
            obtain ⟨hall, -⟩ := i3.mp hst
            refine ⟨?_, Or.inr ⟨n, List.mem_cons_self _ _, hn⟩⟩
            intro x hx
            rcases List.mem_cons.mp hx with he | hr
            · subst he
              exact Or.inr hn
            · exact hall x hr
          · rintro ⟨hall, -⟩
            exact i3.mpr
              ⟨fun x hx => hall x (List.mem_cons_of_mem _ hx), Or.inl rfl⟩
        · constructor
          · intro hst
            obtain ⟨hcs, -⟩ := i4.mp hst
            cases hcs
          · rintro ⟨-, hall⟩
            have hg := hall n (List.mem_cons_self _ _)
            rw [hn] at hg
            cases hg

/-- C8: given that Layer.get_status returns, the result is N exactly when
a first node at N or Bang (both reported as N) is reached past a prefix
of S or C nodes, O exactly when a first node at O is reached past such a
prefix, C exactly when every node is S or C with at least one C, and S
exactly when every node is S. In particular a layer holding a Missing
node before an Identical node aggregates to Missing, see the witness. -/
theorem layer_get_status_ordered (fuel : Nat) (fs : Fs) (L : Layer)
    (st : Status) (h : Layer.get_status fuel fs L = some st) :
    (st = .N ↔ ∃ pre n post, L.nodes = pre ++ n :: post
        ∧ (∀ m ∈ pre, goodSC fuel fs m)
        ∧ (nodeStat fuel fs n = some .N ∨ nodeStat fuel fs n = some .Bang))
  ∧ (st = .O ↔ ∃ pre n post, L.nodes = pre ++ n :: post
        ∧ (∀ m ∈ pre, goodSC fuel fs m)
        ∧ nodeStat fuel fs n = some .O)
  ∧ (st = .C ↔ (∀ m ∈ L.nodes, goodSC fuel fs m)
        ∧ ∃ m ∈ L.nodes, nodeStat fuel fs m = some .C)
  ∧ (st = .S ↔ ∀ m ∈ L.nodes, nodeStat fuel fs m = some .S) := by
  obtain ⟨i1, i2, i3, i4⟩ := scanStatus_char fuel fs L.nodes .S st (Or.inl rfl) h
  refine ⟨i1, i2, ?_, ?_⟩
  · rw [i3]
    constructor
    · rintro ⟨hall, hSC | hex⟩
      · cases hSC
      · exact ⟨hall, hex⟩
    · rintro ⟨hall, hex⟩
      exact ⟨hall, Or.inr hex⟩
  · rw [i4]
    constructor
    · rintro ⟨-, hall⟩
      exact hall
    · intro hall
      exact ⟨rfl, hall⟩

/-- C8 witness, the Scenario E of the spec: a layer whose first node is
Missing and whose second node is Identical aggregates to Missing, and
the theorem characterizes that N as the first node being at N past an
empty prefix. -/
theorem layer_get_status_ordered_witness :
    Layer.get_status 1 fsJ LJ = some .N
      ∧ nodeStat 1 fsJ ⟨tfJ2, 0⟩ = some .C
      ∧ (Status.N = Status.N ↔ ∃ pre n post, LJ.nodes = pre ++ n :: post
          ∧ (∀ m ∈ pre, goodSC 1 fsJ m)
          ∧ (nodeStat 1 fsJ n = some .N ∨ nodeStat 1 fsJ n = some .Bang)) :=
  ⟨by decide, by decide, (layer_get_status_ordered 1 fsJ LJ .N (by decide)).1⟩

/-! Claim C9. -/

/-- C9 (amended): force_out is allowed only from the Bang status and
fails with the Not supported exception from every other status; at the
confirmation prompt exactly the four literal answers n, N, No, no abort
with no filesystem change, and every other answer (the empty default
included) deletes the target and merges, leaving the target symlinked to
the source. The matching is not case-insensitive: the answer NO falls in
the proceed branch, see the counterexample. -/
theorem force_out_behavior (fuel : Nat) (fs : Fs) (tf : TFile) (i : Nat)
    (confirm : String) (st : Status)
    (h : Node.get_status fs tf fuel i = some st) :
    (st ≠ .Bang →
      Node.force_out fuel fs tf i confirm
        = some (fs, some .unsupportedTransition))
  ∧ (st = .Bang →
      (confirm = "n" ∨ confirm = "N" ∨ confirm = "No" ∨ confirm = "no") →
      Node.force_out fuel fs tf i confirm = some (fs, none))
  ∧ (st = .Bang →
      ¬(confirm = "n" ∨ confirm = "N" ∨ confirm = "No" ∨ confirm = "no") →
      Node.force_out fuel fs tf i confirm
        = some (updateFs fs tf.path (.symlink (tf.src i)), none)) := by
  refine ⟨?_, ?_, ?_⟩
  · intro hne
    simp [Node.force_out, h, hne]
  · intro hb hc
    subst hb
    simp only [Node.force_out, h]
    rw [if_pos trivial, if_pos hc]
  · intro hb hc
    subst hb
    have hfile : fs tf.path ≠ .absent :=
      ne_absent_of_isfile (status_isfile h (by intro hx; cases hx))
    cases fuel with
    | zero => cases h
    | succ f =>
      have hstN : Node.get_status (updateFs fs tf.path .absent) tf (f+1) i
          = some .N :=
        status_N_intro (isfile_absent (updateFs_apply_self fs tf.path _)) f i
      have hmerge := node_merge_from_N hstN (updateFs_apply_self fs tf.path _)
      rw [updateFs_collapse] at hmerge
      simp [Node.force_out, h, hc, removeOp, hfile, hmerge]

/-- C9 witness: on a conflicted node the empty answer, the default yes,
proceeds and leaves the target symlinked to the source. -/
theorem force_out_behavior_witness :
    Node.force_out 1 fsK tfK 0 ""
      = some (updateFs fsK tfK.path (.symlink (tfK.src 0)), none) :=
  (force_out_behavior 1 fsK tfK 0 "" .Bang (by decide)).2.2 rfl (by decide)

/-- C9 counterexample: the answer NO, a negative under any
case-insensitive reading, does not abort: the target of a conflicted
node is deleted and replaced by a symlink to the source. -/
theorem force_out_case_cex :
    Node.get_status fsL tfL 1 0 = some .Bang
      ∧ Node.force_out 1 fsL tfL 0 "NO"
        = some (updateFs (updateFs fsL tfL.path .absent) tfL.path
            (.symlink (tfL.src 0)), none)
      ∧ updateFs (updateFs fsL tfL.path .absent) tfL.path
          (.symlink (tfL.src 0)) tfL.path = .symlink (tfL.src 0)
      ∧ fsL tfL.path = .file "a" :=
  ⟨by decide, rfl, by decide, by decide⟩

/-! Claim C10. -/

/-- C10: a layer whose first node is Missing with a truly absent target,
and whose second node observes Owned or Conflicted once the first node
has been symlinked, passes the aggregate status gate (the scan stops at
the first node and reports N), merges the first node, then raises the
Not supported exception at the second node: the already created symlink
stays on disk, no rollback happens, and no merge hook runs. -/
theorem layer_merge_not_atomic (fuel : Nat) (fs : Fs) (L : Layer)
    (n1 n2 : NodeRef) (rest : List NodeRef)
    (hnodes : L.nodes = n1 :: n2 :: rest)
    (h1 : nodeStat fuel fs n1 = some .N)
    (habs : fs (NodeRef.tgt n1) = .absent)
    (h2 : nodeStat fuel (updateFs fs (NodeRef.tgt n1)
            (.symlink (NodeRef.src n1))) n2 = some .O
        ∨ nodeStat fuel (updateFs fs (NodeRef.tgt n1)
            (.symlink (NodeRef.src n1))) n2 = some .Bang) :
    Layer.merge fuel fs L
        = some (updateFs fs (NodeRef.tgt n1) (.symlink (NodeRef.src n1)),
            some .unsupportedTransition, [])
      ∧ updateFs fs (NodeRef.tgt n1) (.symlink (NodeRef.src n1))
          (NodeRef.tgt n1) = .symlink (NodeRef.src n1) := by
  refine ⟨?_, updateFs_apply_self fs _ _⟩
  simp only [nodeStat] at h1
  have hls : Layer.get_status fuel fs L = some .N := by
    simp [Layer.get_status, hnodes, Layer.scanStatus, nodeStat, h1]
  have hm1 : Node.merge fuel fs n1.tf n1.idx
      = some (updateFs fs (NodeRef.tgt n1) (.symlink (NodeRef.src n1)),
          none) :=
    node_merge_from_N h1 habs
  have hm2 : Node.merge fuel
        (updateFs fs (NodeRef.tgt n1) (.symlink (NodeRef.src n1))) n2.tf n2.idx
      = some (updateFs fs (NodeRef.tgt n1) (.symlink (NodeRef.src n1)),
          some .unsupportedTransition) := by
    simp only [nodeStat] at h2
    rcases h2 with h2 | h2
    · simp [Node.merge, h2]
    · simp [Node.merge, h2]
  simp [Layer.merge, hls, hnodes, Layer.mergeNodes, hm1, hm2]

/-- C10 witness: the two-node layer with one merge hook merges its
missing first node, raises at its conflicted second node, keeps the
fresh symlink and runs no hook. -/
theorem layer_merge_not_atomic_witness :
    Layer.merge 1 fsM LM
      = some (updateFs fsM (NodeRef.tgt nM1) (.symlink (NodeRef.src nM1)),
          some .unsupportedTransition, []) :=
  (layer_merge_not_atomic 1 fsM LM nM1 nM2 [] rfl (by decide) (by decide)
    (Or.inr (by decide))).1

end Dotfiles
